import Mathlib

/-!
Shallow embedding of the SwiftScript virtual machine and debug controller
(repository 29thnight/SwiftScript), covering:

* the arithmetic opcode handlers of `src/include/ss_vm_opcodes.inl`
  (`OpCodeHandler<OpCode::OP_ADD>::execute`,
   `OpCodeHandler<OpCode::OP_DIVIDE>::execute`),
* the `OP_SET_PROPERTY` handler (computed properties, property observers),
* the debug controller of `src/src/common/ss_debug.cpp`
  (breakpoint table, instruction hook, stepping, `get_locals`),
* the compiler CLI of `src/src/compiler/SwiftScriptCompiler.cpp`.

C++ machine floats (`double`) are abstracted by `Rat`: every claim settled
here concerns only which *variant* (integer vs float) a handler produces and
the order of effects, never IEEE-754 rounding.  `size_t` arithmetic is
modelled as `Nat` with explicit `% 2 ^ 64` where wraparound matters.
-/

namespace SwiftScript

/-- Modelled from the spec: `Value` (`ss_value.hpp` is not in the source
tree; spec section 3 and 4.A describe it): a tagged union of null, boolean,
signed 64-bit integer, 64-bit float, string handle, object handle.  Object
handles are abstract (`Nat`); float payloads are abstracted by `Rat`. -/
inductive Value where
  | vnull : Value
  | vbool (b : Bool) : Value
  | vint (i : Int) : Value
  | vfloat (q : Rat) : Value
  | vstr (s : String) : Value
  | vobj (h : Nat) : Value
  deriving Repr, DecidableEq

/-- `Value::is_int`. -/
def Value.is_int : Value → Bool
  | .vint _ => true
  | _ => false

/-- `Value::is_float`. -/
def Value.is_float : Value → Bool
  | .vfloat _ => true
  | _ => false

/-- `Value::is_null`. -/
def Value.is_null : Value → Bool
  | .vnull => true
  | _ => false

/-- `Value::is_object`. -/
def Value.is_object : Value → Bool
  | .vobj _ => true
  | _ => false

/-- Modelled from the spec: `Value::try_as<Float>` — "coercion
try-get-as-float (integer promotes, float returns as-is, anything else
fails)" (spec 4.A). -/
def tryAsFloat : Value → Option Rat
  | .vint i => some (i : Rat)
  | .vfloat q => some q
  | _ => none

/-- The operator-overload fallback `vm.call_operator_overload(a, b, op)`:
its body lives in the VM core (not in the embedded opcode handlers), so the
handlers are parametrised by it.  For the claims settled here only its
`Option` shape matters. -/
abbrev Overload := Value → Value → Option Value

/-- `OpCodeHandler<OpCode::OP_ADD>::execute` (ss_vm_opcodes.inl:59-80),
acting on the operand stack (top of stack = head of list).  Pops `b`, then
`a`; if both are integers pushes the integer sum, otherwise coerces both to
float and pushes the float sum; if a coercion fails, tries the operator
overload and else errors. -/
def opAdd (ov : Overload) : List Value → Except String (List Value)
  | b :: a :: rest =>
    if a.is_int && b.is_int then
      match a, b with
      | .vint i, .vint j => .ok (.vint (i + j) :: rest)
      | _, _ => .error "unreachable"
    else
      match tryAsFloat a, tryAsFloat b with
      | some fa, some fb => .ok (.vfloat (fa + fb) :: rest)
      | _, _ =>
        match ov a b with
        | some v => .ok (v :: rest)
        | none => .error "Operands must be numbers for addition."
  | _ => .error "stack underflow"

/-- `OpCodeHandler<OpCode::OP_DIVIDE>::execute` (ss_vm_opcodes.inl:128-144).
Pops `b`, then `a`; coerces both to float; when both coercions succeed it
always pushes `Value::from_float(*fa / *fb)` — there is no integer path.
When a coercion fails it tries the operator overload, else errors. -/
def opDivide (ov : Overload) : List Value → Except String (List Value)
  | b :: a :: rest =>
    match tryAsFloat a, tryAsFloat b with
    | some fa, some fb => .ok (.vfloat (fa / fb) :: rest)
    | _, _ =>
      match ov a b with
      | some v => .ok (v :: rest)
      | none => .error "Operands must be numbers for division."
  | _ => .error "stack underflow"

/-- The claim's reading of integer `DIV`: truncating integer division
(written from the spec's words, for comparison with `opDivide`). -/
def divClaimIntResult (i j : Int) : Value := .vint (Int.tdiv i j)

/-- A trivial overload table (never applicable to numeric operands). -/
def noOverload : Overload := fun _ _ => none

/-! ### The `OP_SET_PROPERTY` handler (ss_vm_opcodes.inl:289-403)

Class descriptors, instances and maps are modelled from the object model the
handler manipulates; the VM heap is a partial map from object handles to
heap objects (`as_object()` returning null is modelled by a missing
entry). -/

/-- A computed-property descriptor of a class: name, getter, setter
(`Value::null()` when the property is read-only). -/
structure ComputedProperty where
  name : String
  getter : Value
  setter : Value
  deriving Repr, DecidableEq

/-- A stored-property descriptor: name plus optional willSet/didSet
observers (`Value::null()` when absent). -/
structure PropertyInfo where
  name : String
  will_set_observer : Value
  did_set_observer : Value
  deriving Repr, DecidableEq

/-- The parts of `ClassObject` the `SET_PROPERTY` handler reads. -/
structure ClassDesc where
  computed_properties : List ComputedProperty
  properties : List PropertyInfo
  deriving Repr, DecidableEq

/-- An instance: class handle (nullable) and the stored-field map,
modelled as an association list with unique keys. -/
structure InstanceData where
  klass : Option ClassDesc
  fields : List (String × Value)
  deriving Repr, DecidableEq

/-- The heap-object variants `SET_PROPERTY` distinguishes.  A function or
closure callee is summarised by what the handler checks of it: its
parameter count and whether it has a chunk body. -/
inductive HeapObject where
  | instObj (inst : InstanceData)
  | mapObj (entries : List (String × Value))
  | funcObj (params : Nat) (hasChunk : Bool)
  | closObj (funcParams : Nat) (funcHasChunk : Bool)
  | otherObj
  deriving Repr, DecidableEq

/-- The VM heap: object handle to heap object; `none` models a null
object pointer. -/
abbrev Heap := Nat → Option HeapObject

/-- `std::unordered_map::find` on a unique-key association list. -/
def mapFind (m : List (String × Value)) (k : String) : Option Value :=
  (m.find? (fun e => e.1 = k)).map (fun e => e.2)

/-- `m[k] = v` on a unique-key association list: replace if present,
append otherwise. -/
def mapSet (m : List (String × Value)) (k : String) (v : Value) :
    List (String × Value) :=
  if (m.find? (fun e => e.1 = k)).isSome then
    m.map (fun e => if e.1 = k then (k, v) else e)
  else
    m ++ [(k, v)]

/-- The handler's in-order scan of `klass->computed_properties`. -/
def findComputed (l : List ComputedProperty) (name : String) :
    Option ComputedProperty :=
  l.find? (fun cp => cp.name = name)

/-- The handler's in-order scan of `klass->properties`. -/
def findPropInfo (l : List PropertyInfo) (name : String) :
    Option PropertyInfo :=
  l.find? (fun p => p.name = name)

/-- Resolution of the setter callee (ss_vm_opcodes.inl:326-350): must be an
object of type Closure (use its function) or Function; yields the
function's parameter count and chunk-presence.  A handle with no heap entry
is a null `Object*` in the source (undefined behaviour there); it is
modelled by the type-mismatch error. -/
def resolveSetterShape (heap : Heap) (callee : Value) :
    Except String (Nat × Bool) :=
  match callee with
  | .vobj h =>
    match heap h with
    | some (.closObj np hc) => .ok (np, hc)
    | some (.funcObj np hc) => .ok (np, hc)
    | _ => .error "Computed property setter must be a function."
  | _ => .error "Computed property setter is not a function."

/-- Effects the stored-property path of `SET_PROPERTY` performs, in program
order: observer invocations (`vm.call_property_observer`, which runs the
observer synchronously with the two listed arguments) and the field-map
write between them. -/
inductive PropEvent where
  | willSetCall (observer selfVal newValue : Value)
  | fieldWrite (name : String) (value : Value)
  | didSetCall (observer selfVal oldValue : Value)
  deriving Repr, DecidableEq

/-- Outcome of a `SET_PROPERTY` execution that does not throw. -/
inductive SetPropResult where
  /-- A call frame for the computed-property setter was pushed, to run the
  setter with arguments `(selfVal, newValue)`; `stackAfter` is the operand
  stack at frame entry (top first). -/
  | setterFrame (setter selfVal newValue : Value) (stackAfter : List Value)
  /-- Stored-property write: the ordered effect trace, the instance's new
  field map, and the resulting operand stack. -/
  | stored (trace : List PropEvent) (newFields : List (String × Value))
      (stackAfter : List Value)
  /-- Map assignment: the map's new entries and the resulting stack. -/
  | mapAssign (newEntries : List (String × Value)) (stackAfter : List Value)
  deriving Repr, DecidableEq

/-- `OpCodeHandler<OpCode::OP_SET_PROPERTY>::execute`
(ss_vm_opcodes.inl:289-403).  Pops `value`, peeks the receiver.  On an
Instance: a computed property of that name, when present, either throws
(null setter: read-only) or sets up the setter call with `(self, value)`;
otherwise the stored field is written, with willSet before and didSet after
the write (didSet receives the field's previous value, null when the field
was absent).  On a Map: plain assignment.  Anything else throws. -/
def setProperty (heap : Heap) (name : String) :
    List Value → Except String SetPropResult
  | value :: objv :: rest =>
    match objv with
    | .vobj hnd =>
      match heap hnd with
      | none => .error "Null object in property set."
      | some (.instObj inst) =>
        let compHit :=
          match inst.klass with
          | some k => findComputed k.computed_properties name
          | none => none
        match compHit with
        | some cp =>
          if cp.setter.is_null then
            .error ("Cannot set read-only computed property: " ++ name)
          else
            match resolveSetterShape heap cp.setter with
            | .error e => .error e
            | .ok (np, hasChunk) =>
              if np ≠ 2 then
                .error "Incorrect argument count for computed property setter."
              else if !hasChunk then
                .error "Setter function has no body."
              else
                .ok (.setterFrame cp.setter objv value
                      (value :: objv :: cp.setter :: rest))
        | none =>
          let pinfo :=
            match inst.klass with
            | some k => findPropInfo k.properties name
            | none => none
          let willS := match pinfo with
            | some p => p.will_set_observer
            | none => Value.vnull
          let didS := match pinfo with
            | some p => p.did_set_observer
            | none => Value.vnull
          let oldV := match pinfo with
            | some _ => (mapFind inst.fields name).getD Value.vnull
            | none => Value.vnull
          let trace :=
            (if willS.is_null then [] else [PropEvent.willSetCall willS objv value])
              ++ [PropEvent.fieldWrite name value]
              ++ (if didS.is_null then [] else [PropEvent.didSetCall didS objv oldV])
          .ok (.stored trace (mapSet inst.fields name value) (value :: rest))
      | some (.mapObj entries) =>
        .ok (.mapAssign (mapSet entries name value) (value :: rest))
      | some _ => .error "Property set only supported on instances or maps."
    | _ => .error "Property set on non-object."
  | _ => .error "stack underflow"

/-- Concrete heap: handle 0 is an instance whose class declares a read-only
computed property `x` (null setter) and a stored field `x`. -/
def c2Heap : Heap := fun h =>
  if h = 0 then
    some (.instObj
      { klass := some
          { computed_properties :=
              [{ name := "x", getter := Value.vnull, setter := Value.vnull }]
            properties := [] }
        fields := [("x", Value.vint 1)] })
  else none

/-- Concrete heap: handle 0 is an instance whose class declares a computed
property `x` with a setter (handle 1, a closure of a 2-parameter function
with a body). -/
def c2SetterHeap : Heap := fun h =>
  if h = 0 then
    some (.instObj
      { klass := some
          { computed_properties :=
              [{ name := "x", getter := Value.vnull, setter := Value.vobj 1 }]
            properties := [] }
        fields := [] })
  else if h = 1 then some (.closObj 2 true)
  else none

/-- Concrete heap: handle 0 is an instance whose class declares a stored
property `y` with willSet (handle 7) and didSet (handle 8) observers; the
field `y` currently holds integer 10. -/
def c3Heap : Heap := fun h =>
  if h = 0 then
    some (.instObj
      { klass := some
          { computed_properties := []
            properties :=
              [{ name := "y", will_set_observer := Value.vobj 7
                 did_set_observer := Value.vobj 8 }] }
        fields := [("y", Value.vint 10)] })
  else none

/-! ### The debug controller (src/src/common/ss_debug.cpp)

The mutex/condition-variable rendezvous of blocking mode is a concurrency
mechanism and is not modelled; `on_instruction` is embedded as a pure
transition on the controller state returning the pause verdict and the
event handed to the callback.  The VM is consulted only for
`vm.call_frames().size()`, passed in as `depth`.  The current source file
(`get_source_file`, whose `std::filesystem` path normalization is host
behaviour) is passed in as a string parameter. -/

/-- `StepMode` (ss_debug.hpp). -/
inductive StepMode where
  | none
  | stepOver
  | stepInto
  | stepOut
  deriving Repr, DecidableEq

/-- `DebugEvent` (ss_debug.hpp). -/
inductive DebugEvent where
  | breakpointHit
  | stepCompleted
  deriving Repr, DecidableEq

/-- `Breakpoint` (ss_debug.hpp). -/
structure Breakpoint where
  id : Nat
  source_file : String
  line : Nat
  enabled : Bool
  hit_count : Nat
  deriving Repr, DecidableEq

/-- A recorded local of the debug info: name, slot, scope byte-offsets. -/
structure LocalVarInfo where
  name : String
  slot_index : Nat
  scope_start_offset : Nat
  scope_end_offset : Nat
  deriving Repr, DecidableEq

/-- Per-body debug info: source path and recorded locals. -/
structure DebugInfo where
  source_file : String
  locals : List LocalVarInfo
  deriving Repr, DecidableEq

/-- The parts of `MethodBody` the debug controller reads: the
per-instruction line table and the optional debug info. -/
structure MethodBody where
  line_info : List Nat
  debug_info : Option DebugInfo
  deriving Repr, DecidableEq

/-- The `DebugController` state (ss_debug.hpp data members, minus the
mutex, condition variables, callback and blocking flag).  `line_to_bp`
models the `std::unordered_multimap<uint32_t, size_t>` as a list of
(line, breakpoint-index) entries. -/
structure DebugController where
  breakpoints : List Breakpoint
  next_breakpoint_id : Nat
  line_to_bp : List (Nat × Nat)
  step_mode : StepMode
  step_frame_depth : Nat
  step_start_line : Nat
  skip_bp_on_resume : Bool
  paused : Bool
  pause_requested : Bool
  prev_line : Nat
  deriving Repr, DecidableEq

/-- The freshly constructed controller (all member initialisers of
ss_debug.hpp). -/
def dcInit : DebugController :=
  { breakpoints := []
    next_breakpoint_id := 1
    line_to_bp := []
    step_mode := .none
    step_frame_depth := 0
    step_start_line := 0
    skip_bp_on_resume := false
    paused := false
    pause_requested := false
    prev_line := 0 }

/-- Placeholder breakpoint for guarded vector reads that the call sites
prove in bounds. -/
def defaultBp : Breakpoint :=
  { id := 0, source_file := "", line := 0, enabled := false, hit_count := 0 }

/-- `DebugController::add_breakpoint` (ss_debug.cpp:14-27): append the
breakpoint, record `(line, index)` in the multimap, return the id. -/
def add_breakpoint (dc : DebugController) (line : Nat) (source_file : String) :
    DebugController × Nat :=
  let bp : Breakpoint :=
    { id := dc.next_breakpoint_id, source_file := source_file, line := line
      enabled := true, hit_count := 0 }
  let idx := dc.breakpoints.length
  ({ dc with
      breakpoints := dc.breakpoints ++ [bp]
      next_breakpoint_id := dc.next_breakpoint_id + 1
      line_to_bp := dc.line_to_bp ++ [(line, idx)] },
   bp.id)

/-- Erase from the multimap the first entry equal to `(line, idx)` (the
`equal_range` + erase of ss_debug.cpp:35-41; bucket order of the
`unordered_multimap` is abstracted as list order). -/
def eraseFirstEntry (line idx : Nat) : List (Nat × Nat) → List (Nat × Nat)
  | [] => []
  | e :: es =>
    if e.1 = line ∧ e.2 = idx then es
    else e :: eraseFirstEntry line idx es

/-- Redirect the first multimap entry equal to `(line, fromIdx)` to point
at `toIdx` (the swapped-element fixup of ss_debug.cpp:46-53). -/
def retargetFirstEntry (line fromIdx toIdx : Nat) :
    List (Nat × Nat) → List (Nat × Nat)
  | [] => []
  | e :: es =>
    if e.1 = line ∧ e.2 = fromIdx then (e.1, toIdx) :: es
    else e :: retargetFirstEntry line fromIdx toIdx es

/-- Index of the first breakpoint with the given id (the search loop of
`DebugController::remove_breakpoint`). -/
def findIdxById : List Breakpoint → Nat → Option Nat
  | [], _ => none
  | bp :: rest, bp_id =>
    if bp.id = bp_id then some 0
    else (findIdxById rest bp_id).map (fun j => j + 1)

/-- `DebugController::remove_breakpoint` (ss_debug.cpp:29-61): find the
breakpoint by id; erase its multimap entry; when it is not the last vector
element, retarget the last element's multimap entry to the vacated index
and move the last element there; pop the back; return whether an id
matched. -/
def remove_breakpoint (dc : DebugController) (bp_id : Nat) :
    DebugController × Bool :=
  match findIdxById dc.breakpoints bp_id with
  | Option.none => (dc, false)
  | Option.some i =>
    let n := dc.breakpoints.length
    let line := (dc.breakpoints.getD i defaultBp).line
    let m1 := eraseFirstEntry line i dc.line_to_bp
    if i < n - 1 then
      let last := dc.breakpoints.getD (n - 1) defaultBp
      let m2 := retargetFirstEntry last.line (n - 1) i m1
      ({ dc with
          breakpoints := (dc.breakpoints.set i last).dropLast
          line_to_bp := m2 }, true)
    else
      ({ dc with breakpoints := dc.breakpoints.dropLast, line_to_bp := m1 },
       true)

/-- `DebugController::enable_breakpoint` (ss_debug.cpp:63-70): set the
enabled flag of the first breakpoint with the given id. -/
def enable_breakpoint (dc : DebugController) (bp_id : Nat) (enabled : Bool) :
    DebugController :=
  { dc with
      breakpoints :=
        match findIdxById dc.breakpoints bp_id with
        | Option.none => dc.breakpoints
        | Option.some i =>
          dc.breakpoints.set i
            { dc.breakpoints.getD i defaultBp with enabled := enabled } }

/-- `DebugController::clear_all_breakpoints` (ss_debug.cpp:72-75). -/
def clear_all_breakpoints (dc : DebugController) : DebugController :=
  { dc with breakpoints := [], line_to_bp := [] }

/-- The downward removal loop of `set_breakpoints_for_source`
(ss_debug.cpp:474-478): for `i` from size down to 1, remove the breakpoint
at index `i - 1` (by its id) when its source equals the normalized
source. -/
def removeMatchingSourceLoop (norm_source : String) :
    DebugController → Nat → DebugController
  | dc, 0 => dc
  | dc, i + 1 =>
    let dc' :=
      if h : i < dc.breakpoints.length then
        let bp := dc.breakpoints.get ⟨i, h⟩
        if bp.source_file = norm_source then (remove_breakpoint dc bp.id).1
        else dc
      else dc
    removeMatchingSourceLoop norm_source dc' i

/-- `DebugController::set_breakpoints_for_source` (ss_debug.cpp:467-484).
`norm_source` is `normalize_path(source_file)` — the `std::filesystem`
canonicalisation is host behaviour, so the model receives the normalized
string. -/
def set_breakpoints_for_source (dc : DebugController) (norm_source : String)
    (lines : List Nat) : DebugController :=
  let dc1 := removeMatchingSourceLoop norm_source dc dc.breakpoints.length
  lines.foldl (fun acc line => (add_breakpoint acc line norm_source).1) dc1

/-- `DebugController::step_over` (ss_debug.cpp:81-88), minus the
condition-variable signalling. -/
def step_over (dc : DebugController) : DebugController :=
  { dc with step_mode := .stepOver, skip_bp_on_resume := true, paused := false }

/-- `DebugController::step_into` (ss_debug.cpp:90-95). -/
def step_into (dc : DebugController) : DebugController :=
  { dc with step_mode := .stepInto, skip_bp_on_resume := true, paused := false }

/-- `DebugController::step_out` (ss_debug.cpp:97-102). -/
def step_out (dc : DebugController) : DebugController :=
  { dc with step_mode := .stepOut, skip_bp_on_resume := true, paused := false }

/-- `DebugController::resume` (ss_debug.cpp:104-112). -/
def resume (dc : DebugController) : DebugController :=
  { dc with step_mode := .none, skip_bp_on_resume := true, paused := false
            pause_requested := false }

/-- `DebugController::pause` (ss_debug.cpp:114-116). -/
def requestPause (dc : DebugController) : DebugController :=
  { dc with pause_requested := true }

/-- The character normalization of `paths_equal` (ss_debug.cpp:426-442,
`_WIN32` branch, the platform the project builds for): uppercase ASCII is
lowered, `/` becomes `\`. -/
def charNorm (c : Char) : Char :=
  let c1 := if 'A' ≤ c ∧ c ≤ 'Z' then Char.ofNat (c.toNat + 32) else c
  if c1 = '/' then '\x5c' else c1

/-- `paths_equal` (`_WIN32` branch): equal length and equal after
character-wise normalization — equivalently, equal normalized character
sequences. -/
def paths_equal (a b : String) : Bool :=
  decide (a.data.map charNorm = b.data.map charNorm)

/-- Does multimap entry `e` denote an enabled breakpoint matching `source`
(the loop body of `check_breakpoint`, ss_debug.cpp:446-459)? -/
def bpEntryMatches (bps : List Breakpoint) (source : String) (e : Nat × Nat) :
    Bool :=
  if h : e.2 < bps.length then
    let bp := bps.get ⟨e.2, h⟩
    bp.enabled &&
      (bp.source_file.isEmpty || (!source.isEmpty && paths_equal bp.source_file source))
  else false

/-- `DebugController::check_breakpoint` (ss_debug.cpp:444-461): any
multimap entry at this line denoting an enabled, source-matching
breakpoint. -/
def check_breakpoint (dc : DebugController) (line : Nat) (source : String) :
    Bool :=
  (dc.line_to_bp.filter (fun e => decide (e.1 = line))).any
    (bpEntryMatches dc.breakpoints source)

/-- The hit-count increment loop of `on_instruction` (ss_debug.cpp:170-175):
for every multimap entry at this line whose index is valid and whose
breakpoint is enabled, increment that breakpoint's hit count. -/
def incrementHits (bps : List Breakpoint) (entries : List (Nat × Nat))
    (line : Nat) : List Breakpoint :=
  (entries.filter (fun e => decide (e.1 = line))).foldl
    (fun acc e =>
      if h : e.2 < acc.length then
        let bp := acc.get ⟨e.2, h⟩
        if bp.enabled then acc.set e.2 { bp with hit_count := bp.hit_count + 1 }
        else acc
      else acc)
    bps

/-- `DebugController::get_line` (ss_debug.cpp:377-380): 0 when there is no
body or the ip is outside the line table. -/
def get_line (ip : Nat) (body : Option MethodBody) : Nat :=
  match body with
  | Option.none => 0
  | Option.some b => if h : ip < b.line_info.length then b.line_info.get ⟨ip, h⟩ else 0

/-- Accumulator threaded through the three pause checks of
`on_instruction`: controller state, `should_pause`, and the `event`
variable. -/
structure HookAcc where
  st : DebugController
  should : Bool
  event : DebugEvent
  deriving Repr, DecidableEq

/-- The explicit-pause-request check (ss_debug.cpp:155-159): when
requested, clear the request, decide to pause, event StepCompleted
(`should_pause` starts false, `event` starts BreakpointHit). -/
def hookPauseStage (dc : DebugController) : HookAcc :=
  if dc.pause_requested then
    ⟨{ dc with pause_requested := false }, true, DebugEvent.stepCompleted⟩
  else ⟨dc, false, DebugEvent.breakpointHit⟩

/-- The breakpoint check (ss_debug.cpp:161-176): when not already pausing,
the one-shot skip flag is down and an enabled source-matching breakpoint
sits on this line, decide to pause with BreakpointHit and bump hit
counts. -/
def hookBpStage (line : Nat) (current_source : String) (a : HookAcc) :
    HookAcc :=
  if !a.should && !a.st.skip_bp_on_resume &&
      check_breakpoint a.st line current_source then
    ⟨{ a.st with
        breakpoints := incrementHits a.st.breakpoints a.st.line_to_bp line },
     true, DebugEvent.breakpointHit⟩
  else a

/-- The step-condition check (ss_debug.cpp:178-207): only when not already
pausing, a step mode is active and the line changed; Into always pauses,
Over when depth ≤ captured, Out when depth < captured; on pause the step
mode resets and the event is StepCompleted. -/
def hookStepStage (line_changed : Bool) (depth : Nat) (a : HookAcc) :
    HookAcc :=
  let sp : Bool :=
    match a.st.step_mode with
    | StepMode.stepInto => true
    | StepMode.stepOver => decide (depth ≤ a.st.step_frame_depth)
    | StepMode.stepOut => decide (depth < a.st.step_frame_depth)
    | StepMode.none => false
  if !a.should && !(a.st.step_mode == StepMode.none) && line_changed && sp then
    ⟨{ a.st with step_mode := StepMode.none }, true, DebugEvent.stepCompleted⟩
  else a

/-- `DebugController::on_instruction` (ss_debug.cpp:122-235), minus the
blocking-mode rendezvous.  Returns the post state, the pause verdict, and
the event passed to the installed callback (none when not pausing).
`depth` is `vm.call_frames().size()`; `current_source` is
`get_source_file(method_body)`. -/
def on_instruction (dc : DebugController) (method_body : Option MethodBody)
    (ip : Nat) (depth : Nat) (current_source : String) :
    DebugController × Bool × Option DebugEvent :=
  match method_body with
  | Option.none => (dc, false, Option.none)
  | Option.some body =>
    if ip ≥ body.line_info.length then (dc, false, Option.none)
    else
      let line := get_line ip (Option.some body)
      if line = 0 then (dc, false, Option.none)
      else
        let line_changed : Bool := decide (line ≠ dc.prev_line)
        if !line_changed && !dc.pause_requested &&
            (dc.step_mode == StepMode.none) then
          (dc, false, Option.none)
        else
          let dc2 :=
            if line_changed then
              { dc with prev_line := line, skip_bp_on_resume := false }
            else { dc with prev_line := line }
          let a :=
            hookStepStage line_changed depth
              (hookBpStage line current_source (hookPauseStage dc2))
          if a.should then
            ({ a.st with paused := true, step_frame_depth := depth
                         step_start_line := line },
             true, Option.some a.event)
          else (a.st, false, Option.none)

/-- The claim's step condition, written from the claim's words: on a line
change, pause when step mode is Into, or Over with current depth at most
the captured depth, or Out with current depth strictly below the captured
depth. -/
def claimStepPauses (mode : StepMode) (depth captured : Nat)
    (lineChanged : Bool) : Bool :=
  lineChanged &&
    ((mode == StepMode.stepInto)
      || ((mode == StepMode.stepOver) && decide (depth ≤ captured))
      || ((mode == StepMode.stepOut) && decide (depth < captured)))

/-- The claim's ordered pause decision, written from the claim's words:
explicit pause request first, then breakpoint on the current (line,
source) — honouring the one-shot skip flag on an unchanged line — then the
step condition. -/
def claimPauseOutcome (dc : DebugController) (line depth : Nat)
    (source : String) : Bool × Option DebugEvent :=
  let lineChanged := line ≠ dc.prev_line
  let skipNow := if lineChanged then false else dc.skip_bp_on_resume
  if dc.pause_requested then (true, Option.some DebugEvent.stepCompleted)
  else if ¬skipNow ∧ check_breakpoint dc line source then
    (true, Option.some DebugEvent.breakpointHit)
  else if claimStepPauses dc.step_mode depth dc.step_frame_depth
            (decide lineChanged) then
    (true, Option.some DebugEvent.stepCompleted)
  else (false, Option.none)

/-- One instruction-boundary hook call: the body, ip, current call depth
and current source file the VM would hand to `on_instruction`. -/
structure HookInput where
  mb : Option MethodBody
  ip : Nat
  depth : Nat
  source : String

/-- A run of consecutive instruction-boundary hook calls, collecting each
call's pause verdict and emitted event. -/
def runHook : DebugController → List HookInput →
    DebugController × List (Bool × Option DebugEvent)
  | dc, [] => (dc, [])
  | dc, inp :: rest =>
    let r := on_instruction dc inp.mb inp.ip inp.depth inp.source
    let next := runHook r.1 rest
    (next.1, r.2 :: next.2)

/-- A breakpoint-table mutation issued by the debug adapter. -/
inductive BpOp where
  | addBp (line : Nat) (source : String)
  | removeBp (bp_id : Nat)
  | setForSource (norm_source : String) (lines : List Nat)
  | clearAll

/-- Apply one breakpoint-table operation. -/
def applyBpOp (dc : DebugController) : BpOp → DebugController
  | .addBp line src => (add_breakpoint dc line src).1
  | .removeBp i => (remove_breakpoint dc i).1
  | .setForSource s lines => set_breakpoints_for_source dc s lines
  | .clearAll => clear_all_breakpoints dc

/-- Apply a sequence of breakpoint-table operations. -/
def applyBpOps (dc : DebugController) (ops : List BpOp) : DebugController :=
  ops.foldl applyBpOp dc

/-- Strengthened table invariant: every multimap entry indexes into the
vector, and for every vector index the multimap holds exactly one entry
for it — `(breakpoint's line, index)`. -/
def BpInv (dc : DebugController) : Prop :=
  (∀ e ∈ dc.line_to_bp, e.2 < dc.breakpoints.length) ∧
  (∀ j : Nat, ∀ h : j < dc.breakpoints.length,
    dc.line_to_bp.filter (fun e => decide (e.2 = j)) =
      [(dc.breakpoints[j].line, j)])

/-- The claim's consistency property: every multimap entry `(line, index)`
has `index` in range with the breakpoint at that index on that line, and
every breakpoint is reachable from the multimap under its line. -/
def bpTableConsistent (dc : DebugController) : Prop :=
  (∀ e ∈ dc.line_to_bp, ∃ h : e.2 < dc.breakpoints.length,
    dc.breakpoints[e.2].line = e.1) ∧
  (∀ j : Nat, ∀ h : j < dc.breakpoints.length,
    (dc.breakpoints[j].line, j) ∈ dc.line_to_bp)

/-! ### `DebugController::get_locals` (ss_debug.cpp:300-371) -/

/-- `DebugVariable` (ss_debug.hpp): a local-variable snapshot. -/
structure DebugVariable where
  name : String
  value : Value
  slot : Nat
  deriving Repr, DecidableEq

/-- The parts of `CallFrame` that `get_locals` reads: stack base, return
address, body index, function name, and the caller chunk's body table
(`none` models a null chunk pointer). -/
structure CallFrameD where
  stack_base : Nat
  return_address : Nat
  body_index : Nat
  function_name : String
  chunk_bodies : Option (List MethodBody)
  deriving Repr, DecidableEq

/-- The VM state `get_locals` consults: operand stack, call-frame stack,
current (innermost) body, current ip. -/
structure VMSnap where
  stack : List Value
  call_frames : List CallFrameD
  current_body : Option MethodBody
  current_ip : Nat
  deriving Repr, DecidableEq

/-- `SIZE_MAX`: the sentinel frame index for the top level; `size_t`
arithmetic is modelled as `Nat` mod `2 ^ 64`. -/
def SIZEMAX : Nat := 2 ^ 64 - 1

/-- The frame-resolution prefix of `get_locals` (ss_debug.cpp:305-330):
yields (stack base, body, ip) for the requested frame.  Top level (no
frames, or the `SIZE_MAX` sentinel) uses stack base 0 with the current
body and ip; the innermost frame uses its stack base with the current body
and ip; an older frame uses its chunk's body at `body_index` and its
return address; an out-of-range index leaves the initial (0, null, 0). -/
def resolveFrame (vm : VMSnap) (frame_index : Nat) :
    Nat × Option MethodBody × Nat :=
  if vm.call_frames = [] ∨ frame_index = SIZEMAX then
    (0, vm.current_body, vm.current_ip)
  else if h : frame_index < vm.call_frames.length then
    let cf := vm.call_frames.get ⟨frame_index, h⟩
    if frame_index = vm.call_frames.length - 1 then
      (cf.stack_base, vm.current_body, vm.current_ip)
    else
      (cf.stack_base,
       (match cf.chunk_bodies with
        | Option.none => Option.none
        | Option.some bodies =>
          if cf.body_index < bodies.length then bodies[cf.body_index]?
          else Option.none),
       cf.return_address)
  else (0, Option.none, 0)

/-- The end of the frame's live stack region in the no-debug-info branch
(ss_debug.cpp:334-339): the next frame's stack base when `frame_index + 1`
(with `size_t` wraparound) is a valid frame index, else the stack size. -/
def frameStackEnd (vm : VMSnap) (frame_index : Nat) : Nat :=
  if h : (frame_index + 1) % 2 ^ 64 < vm.call_frames.length then
    (vm.call_frames.get ⟨(frame_index + 1) % 2 ^ 64, h⟩).stack_base
  else vm.stack.length

/-- `DebugController::get_locals` (ss_debug.cpp:300-371).  With debug
info: one entry per recorded local whose scope contains the ip (zero
`scope_end_offset` meaning no upper bound) whose absolute slot is on the
stack, carrying name, slot and the stack value.  Without debug info:
one anonymous `local_i` entry per slot of the frame's live region (the
`DebugVariable` default, null, when the slot is off the stack). -/
def get_locals (vm : VMSnap) (frame_index : Nat) : List DebugVariable :=
  let r := resolveFrame vm frame_index
  let stack_base := r.1
  let ip := r.2.2
  match r.2.1.bind (fun b => b.debug_info) with
  | Option.none =>
    let stack_end := frameStackEnd vm frame_index
    (List.range' stack_base (stack_end - stack_base)).map (fun slot =>
      { name := "local_" ++ toString (slot - stack_base)
        slot := slot - stack_base
        value :=
          if hs : slot < vm.stack.length then vm.stack.get ⟨slot, hs⟩
          else Value.vnull })
  | Option.some dbg =>
    dbg.locals.filterMap (fun l =>
      if l.scope_start_offset ≤ ip ∧
          (l.scope_end_offset = 0 ∨ ip < l.scope_end_offset) then
        (if hs : stack_base + l.slot_index < vm.stack.length then
          Option.some
            { name := l.name, slot := l.slot_index
              value := vm.stack.get ⟨stack_base + l.slot_index, hs⟩ }
        else Option.none)
      else Option.none)

/-! ### The compiler CLI (src/src/compiler/SwiftScriptCompiler.cpp) -/

/-- Outcome of one run of the compiler CLI process: a normal exit with a
code and the file written (path, serialized bytes), or termination by an
uncaught C++ exception. -/
inductive CliOutcome where
  | exited (code : Nat) (written : Option (String × List Nat))
  | uncaughtException (msg : String)
  deriving Repr, DecidableEq

/-- The argument-parsing loop of `main` (SwiftScriptCompiler.cpp:19-26):
`-compile:<type>` sets the build type; `-in` followed by a value sets the
input project (a trailing `-in` is ignored); other arguments are
skipped. -/
def parseArgs : List String → String → String → String × String
  | [], buildType, inputProject => (buildType, inputProject)
  | arg :: rest, buildType, inputProject =>
    if arg.startsWith "-compile:" then
      parseArgs rest (arg.drop 9) inputProject
    else if arg = "-in" then
      match rest with
      | v :: rest2 => parseArgs rest2 buildType v
      | [] => (buildType, inputProject)
    else parseArgs rest buildType inputProject

/-- `std::filesystem::path::filename`: the component after the last
directory separator. -/
def pathFilename (p : String) : String :=
  String.mk (p.data.foldl
    (fun acc c => if c = '/' ∨ c = '\x5c' then [] else acc ++ [c]) [])

/-- Index of the last '.' of a character list, if any. -/
def lastDotIdx (cs : List Char) : Option Nat :=
  ((List.range cs.length).filter (fun i => cs.getD i ' ' = '.')).getLast?

/-- `std::filesystem::path::stem` (`inPath.stem()`,
SwiftScriptCompiler.cpp:35): the filename stripped of its extension; "."
and ".." and a leading-dot-only filename keep their name. -/
def pathStem (p : String) : String :=
  let fn := pathFilename p
  if fn = "." ∨ fn = ".." then fn
  else
    match lastDotIdx fn.data with
    | Option.none => fn
    | Option.some 0 => fn
    | Option.some i => String.mk (fn.data.take i)

/-- `main` of the compiler CLI (SwiftScriptCompiler.cpp:13-64).
`readFile` models `std::ifstream` on the input (none = unopenable);
`canOpenWrite` models `std::ofstream` on the output; `compileFn` models
Lexer → Parser → Compiler → `chunk.serialize` (front-end sources are not
under the source tree; its failures are thrown C++ exceptions —
`CompilerError`, `ParseError`, caught in src/src/embed/ss_embed.cpp and
src/server_src/analyzer.cpp — and `main` installs no handler, so a
compile error escapes `main` as an uncaught exception). -/
def compilerMain (readFile : String → Option String)
    (canOpenWrite : String → Bool)
    (compileFn : String → Except String (List Nat))
    (args : List String) : CliOutcome :=
  let parsed := parseArgs args "Debug" ""
  let inputProject := parsed.2
  if inputProject = "" then CliOutcome.exited 1 Option.none
  else
    let outputFile := pathStem inputProject ++ ".ssasm"
    match readFile inputProject with
    | Option.none => CliOutcome.exited 1 Option.none
    | Option.some source =>
      match compileFn source with
      | Except.error e => CliOutcome.uncaughtException e
      | Except.ok bytes =>
        if canOpenWrite outputFile then
          CliOutcome.exited 0 (Option.some (outputFile, bytes))
        else CliOutcome.exited 1 Option.none

end SwiftScript

namespace SwiftScript

/-- **C1, counterexample.**  The claim says an integer/integer `DIV` pushes
an integer obtained by truncating integer division.  On the code, dividing
integer 6 by integer 3 (stack holds `b = 3` on top of `a = 6`) pushes the
*float* 2, not the integer 2: `OP_DIVIDE` has no integer path. -/
theorem C1_counterexample :
    opDivide noOverload [Value.vint 3, Value.vint 6]
      = Except.ok [Value.vfloat 2]
    ∧ Value.is_int (Value.vfloat 2) = false
    ∧ Value.vfloat 2 ≠ divClaimIntResult 6 3 := by
  refine ⟨?_, rfl, by simp [divClaimIntResult]⟩
  simp [opDivide, tryAsFloat, noOverload]
  norm_num

/-- **C1, amended.**  For every execution of the `DIV` opcode whose two
operands both coerce to float — in particular whenever both are integers,
and whenever at least one is a float and the other is numeric — the handler
pushes a float: the float quotient of the coerced operands.  (The claim's
integer/integer case yielding a truncated integer is false; `OP_DIVIDE`
always produces a float.) -/
theorem C1_div_always_float (ov : Overload) (a b : Value) (rest : List Value)
    (fa fb : Rat) (ha : tryAsFloat a = some fa) (hb : tryAsFloat b = some fb) :
    opDivide ov (b :: a :: rest) = Except.ok (Value.vfloat (fa / fb) :: rest) := by
  simp [opDivide, ha, hb]

/-- Witness for `C1_div_always_float`: two integer operands 6 and 3 coerce
to floats 6 and 3 and the result pushed is the float 2. -/
theorem C1_div_always_float_witness :
    opDivide noOverload [Value.vint 3, Value.vint 6]
      = Except.ok [Value.vfloat (6 / 3 : Rat)] :=
  C1_div_always_float noOverload (Value.vint 6) (Value.vint 3) [] 6 3
    (by norm_num [tryAsFloat]) (by norm_num [tryAsFloat])

/-- **C2, counterexample.**  The claim says that when the computed property
has no setter, the stored field is written and execution does not fail.  On
the code, writing `x` on an instance whose class declares computed property
`x` with a null setter throws "Cannot set read-only computed property: x" —
the stored field is never touched. -/
theorem C2_counterexample :
    setProperty c2Heap "x" [Value.vint 5, Value.vobj 0]
      = Except.error "Cannot set read-only computed property: x" := by
  rfl

/-- **C2, amended.**  For every `SET_PROPERTY` on an instance whose class
declares a computed property of that name (first match in declaration
order): if the setter is null, execution fails with the read-only error; if
the setter resolves to a callable with 2 parameters and a body, a call
frame for the setter is set up with arguments `(self, newValue)`. -/
theorem C2_computed_setter (heap : Heap) (name : String) (value : Value)
    (rest : List Value) (hnd : Nat) (inst : InstanceData) (k : ClassDesc)
    (cp : ComputedProperty)
    (hh : heap hnd = some (.instObj inst))
    (hk : inst.klass = some k)
    (hfind : findComputed k.computed_properties name = some cp) :
    (cp.setter.is_null = true →
      setProperty heap name (value :: Value.vobj hnd :: rest)
        = .error ("Cannot set read-only computed property: " ++ name))
    ∧ (resolveSetterShape heap cp.setter = .ok (2, true) →
      setProperty heap name (value :: Value.vobj hnd :: rest)
        = .ok (.setterFrame cp.setter (Value.vobj hnd) value
                 (value :: Value.vobj hnd :: cp.setter :: rest))) := by
  constructor
  · intro hnull
    simp [setProperty, hh, hk, hfind, hnull]
  · intro hres
    have hnn : cp.setter.is_null = false := by
      cases hsetter : cp.setter <;>
        simp_all [resolveSetterShape, Value.is_null]
    simp [setProperty, hh, hk, hfind, hnn, hres]

/-- Witness for `C2_computed_setter`: on `c2SetterHeap`, setting `x` to 5
sets up the setter call with self (handle 0) and new value 5. -/
theorem C2_computed_setter_witness :
    setProperty c2SetterHeap "x" [Value.vint 5, Value.vobj 0]
      = Except.ok (.setterFrame (Value.vobj 1) (Value.vobj 0) (Value.vint 5)
          [Value.vint 5, Value.vobj 0, Value.vobj 1]) :=
  (C2_computed_setter c2SetterHeap "x" (Value.vint 5) [] 0
    { klass := some
        { computed_properties :=
            [{ name := "x", getter := Value.vnull, setter := Value.vobj 1 }]
          properties := [] }
      fields := [] }
    { computed_properties :=
        [{ name := "x", getter := Value.vnull, setter := Value.vobj 1 }]
      properties := [] }
    { name := "x", getter := Value.vnull, setter := Value.vobj 1 }
    rfl rfl rfl).2 rfl

/-- **C3, confirmed.**  When `SET_PROPERTY` writes a stored property whose
descriptor carries both observers, the effect trace is exactly: willSet
called with `(self, newValue)`, then the field-map write, then didSet
called with `(self, oldValue)` where `oldValue` is the field's value before
the write. -/
theorem C3_observer_order (heap : Heap) (name : String) (value : Value)
    (rest : List Value) (hnd : Nat) (inst : InstanceData) (k : ClassDesc)
    (p : PropertyInfo) (oldV : Value)
    (hh : heap hnd = some (.instObj inst))
    (hk : inst.klass = some k)
    (hnc : findComputed k.computed_properties name = none)
    (hp : findPropInfo k.properties name = some p)
    (hw : p.will_set_observer.is_null = false)
    (hd : p.did_set_observer.is_null = false)
    (hold : mapFind inst.fields name = some oldV) :
    setProperty heap name (value :: Value.vobj hnd :: rest)
      = Except.ok (.stored
          [.willSetCall p.will_set_observer (Value.vobj hnd) value,
           .fieldWrite name value,
           .didSetCall p.did_set_observer (Value.vobj hnd) oldV]
          (mapSet inst.fields name value) (value :: rest)) := by
  simp [setProperty, hh, hk, hnc, hp, hw, hd, hold]

/-- Witness for `C3_observer_order`: on `c3Heap`, setting `y` to 42 runs
willSet(self, 42), writes the field, then didSet(self, 10). -/
theorem C3_observer_order_witness :
    setProperty c3Heap "y" [Value.vint 42, Value.vobj 0]
      = Except.ok (.stored
          [.willSetCall (Value.vobj 7) (Value.vobj 0) (Value.vint 42),
           .fieldWrite "y" (Value.vint 42),
           .didSetCall (Value.vobj 8) (Value.vobj 0) (Value.vint 10)]
          [("y", Value.vint 42)] [Value.vint 42]) :=
  C3_observer_order c3Heap "y" (Value.vint 42) [] 0
    { klass := some
        { computed_properties := []
          properties :=
            [{ name := "y", will_set_observer := Value.vobj 7
               did_set_observer := Value.vobj 8 }] }
      fields := [("y", Value.vint 10)] }
    { computed_properties := []
      properties :=
        [{ name := "y", will_set_observer := Value.vobj 7
           did_set_observer := Value.vobj 8 }] }
    { name := "y", will_set_observer := Value.vobj 7
      did_set_observer := Value.vobj 8 }
    (Value.vint 10) rfl rfl rfl rfl rfl rfl rfl

/-- **C7, confirmed.**  When the hook runs at an instruction whose source
line cannot be determined (no body, ip outside the line table, or a zero
line-table entry), it returns false, emits no event, and leaves the whole
controller state — in particular `prev_line_` — unchanged. -/
theorem C7_unknown_line_no_effect (dc : DebugController)
    (mb : Option MethodBody) (ip depth : Nat) (src : String)
    (h : get_line ip mb = 0) :
    on_instruction dc mb ip depth src = (dc, false, Option.none) := by
  cases mb with
  | none => rfl
  | some body =>
    by_cases hip : ip < body.line_info.length
    · have hz : get_line ip (Option.some body) = 0 := h
      simp [on_instruction, Nat.not_le.mpr hip, hz]
    · simp [on_instruction, Nat.le_of_not_lt hip]

/-- Witness for `C7_unknown_line_no_effect`: a body whose line table maps
the instruction to line 0. -/
theorem C7_unknown_line_no_effect_witness :
    on_instruction dcInit
      (Option.some { line_info := [0], debug_info := Option.none }) 0 0 ""
      = (dcInit, false, Option.none) :=
  C7_unknown_line_no_effect dcInit
    (Option.some { line_info := [0], debug_info := Option.none }) 0 0 ""
    (by decide)

/-- `check_breakpoint` reads only the breakpoint vector and the line
multimap (unfolding on a literal controller). -/
theorem check_breakpoint_mk (bps : List Breakpoint) (nid : Nat)
    (m : List (Nat × Nat)) (sm : StepMode) (sfd ssl : Nat) (sk pa pr : Bool)
    (pl line : Nat) (src : String) :
    check_breakpoint ⟨bps, nid, m, sm, sfd, ssl, sk, pa, pr, pl⟩ line src =
      (m.filter (fun e => decide (e.1 = line))).any (bpEntryMatches bps src) :=
  rfl

set_option maxHeartbeats 1600000

/-- **C4, confirmed.**  Whenever the hook reaches the pause decision (the
line is known and the call is not the unchanged-line fast path), the pause
verdict and emitted event are exactly the claim's ordered decision:
explicit pause request, then breakpoint on the current (line, source), then
the step condition — which fires exactly when, on a line change, the mode
is Into, or Over with depth ≤ the captured depth, or Out with depth < the
captured depth. -/
theorem C4_decision_order (dc : DebugController) (body : MethodBody)
    (ip depth : Nat) (src : String)
    (hip : ip < body.line_info.length)
    (hnz : get_line ip (Option.some body) ≠ 0)
    (hreach : get_line ip (Option.some body) ≠ dc.prev_line ∨
      dc.pause_requested = true ∨ dc.step_mode ≠ StepMode.none) :
    (on_instruction dc (Option.some body) ip depth src).2 =
      claimPauseOutcome dc (get_line ip (Option.some body)) depth src := by
  have hnge : ¬ ip ≥ body.line_info.length := Nat.not_le.mpr hip
  obtain ⟨bps, nid, m, sm, sfd, ssl, sk, pa, pr, pl⟩ := dc
  simp only [on_instruction]
  rw [if_neg hnge]
  generalize hLdef : get_line ip (Option.some body) = L at hnz hreach ⊢
  rw [if_neg hnz]
  by_cases hcb :
    (m.filter (fun e => decide (e.1 = L))).any (bpEntryMatches bps src)
      = true <;>
  by_cases hlc : L = pl <;>
  try subst hlc
  all_goals
    cases pr <;> cases sk <;> cases sm <;>
    by_cases hd1 : depth ≤ sfd <;> by_cases hd2 : depth < sfd <;>
    first
    | (exfalso; revert hreach; simp; done)
    | (simp [hookPauseStage, hookBpStage, hookStepStage, claimPauseOutcome,
        claimStepPauses, check_breakpoint_mk, hcb, hlc, hd1, hd2,
        -List.any_eq_true]; done)
    | simp [hookPauseStage, hookBpStage, hookStepStage, claimPauseOutcome,
        claimStepPauses, check_breakpoint_mk, hcb, hd1, hd2,
        -List.any_eq_true]

set_option maxHeartbeats 200000

/-- Witness for `C4_decision_order`: a pending pause request at a known
line. -/
theorem C4_decision_order_witness :
    (on_instruction (requestPause dcInit)
        (Option.some { line_info := [5], debug_info := Option.none }) 0 0 "").2 =
      claimPauseOutcome (requestPause dcInit)
        (get_line 0
          (Option.some { line_info := [5], debug_info := Option.none })) 0 "" :=
  C4_decision_order (requestPause dcInit)
    { line_info := [5], debug_info := Option.none } 0 0 ""
    (by decide) (by decide) (Or.inr (Or.inl (by decide)))

/-- `hookPauseStage` never changes the one-shot skip flag. -/
theorem hookPauseStage_skip (st : DebugController) :
    (hookPauseStage st).st.skip_bp_on_resume = st.skip_bp_on_resume := by
  unfold hookPauseStage; split <;> rfl

/-- `hookBpStage` never changes the one-shot skip flag. -/
theorem hookBpStage_skip (line : Nat) (src : String) (a : HookAcc) :
    (hookBpStage line src a).st.skip_bp_on_resume =
      a.st.skip_bp_on_resume := by
  unfold hookBpStage; split <;> rfl

/-- `hookStepStage` never changes the one-shot skip flag. -/
theorem hookStepStage_skip (lc : Bool) (depth : Nat) (a : HookAcc) :
    (hookStepStage lc depth a).st.skip_bp_on_resume =
      a.st.skip_bp_on_resume := by
  simp only [hookStepStage]; split <;> rfl

/-- The final wrapping of `on_instruction` preserves the one-shot skip
flag whichever way the pause verdict went. -/
theorem hookFinal_skip (a : HookAcc) (line depth : Nat) :
    (if a.should then
        ({ a.st with paused := true, step_frame_depth := depth
                     step_start_line := line },
         true, Option.some a.event)
      else (a.st, false, (Option.none : Option DebugEvent))).1.skip_bp_on_resume
      = a.st.skip_bp_on_resume := by
  split <;> rfl

/-- `hookPauseStage` never changes the breakpoint vector. -/
theorem hookPauseStage_bps (st : DebugController) :
    (hookPauseStage st).st.breakpoints = st.breakpoints := by
  unfold hookPauseStage; split <;> rfl

/-- `hookPauseStage` never changes the line multimap. -/
theorem hookPauseStage_m (st : DebugController) :
    (hookPauseStage st).st.line_to_bp = st.line_to_bp := by
  unfold hookPauseStage; split <;> rfl

/-- `hookStepStage` never changes the breakpoint vector. -/
theorem hookStepStage_bps (lc : Bool) (depth : Nat) (a : HookAcc) :
    (hookStepStage lc depth a).st.breakpoints = a.st.breakpoints := by
  simp only [hookStepStage]; split <;> rfl

/-- `hookBpStage` either leaves the breakpoint vector alone or applies the
hit-count increment, exactly when its pause condition fires. -/
theorem hookBpStage_bps (line : Nat) (src : String) (a : HookAcc) :
    (hookBpStage line src a).st.breakpoints =
      if (!a.should && !a.st.skip_bp_on_resume &&
          check_breakpoint a.st line src) = true then
        incrementHits a.st.breakpoints a.st.line_to_bp line
      else a.st.breakpoints := by
  unfold hookBpStage
  split <;> simp_all

/-- The final wrapping of `on_instruction` never changes the breakpoint
vector. -/
theorem hookFinal_bps (a : HookAcc) (line depth : Nat) :
    (if a.should then
        ({ a.st with paused := true, step_frame_depth := depth
                     step_start_line := line },
         true, Option.some a.event)
      else (a.st, false, (Option.none : Option DebugEvent))).1.breakpoints
      = a.st.breakpoints := by
  split <;> rfl

/-- The `if line_changed` state update of `on_instruction` never changes
the breakpoint vector. -/
theorem iteUpdate_bps (c : Prop) [Decidable c] (dc : DebugController)
    (line : Nat) :
    (if c then { dc with prev_line := line, skip_bp_on_resume := false }
      else { dc with prev_line := line }).breakpoints = dc.breakpoints := by
  split <;> rfl

/-- The `if line_changed` state update of `on_instruction` never changes
the line multimap. -/
theorem iteUpdate_m (c : Prop) [Decidable c] (dc : DebugController)
    (line : Nat) :
    (if c then { dc with prev_line := line, skip_bp_on_resume := false }
      else { dc with prev_line := line }).line_to_bp = dc.line_to_bp := by
  split <;> rfl

/-- An if-then-else equals one of its branches. -/
theorem ite_self_or {α : Sort _} (c : Prop) [Decidable c] (x y : α) :
    (if c then x else y) = y ∨ (if c then x else y) = x := by
  split
  · exact Or.inr rfl
  · exact Or.inl rfl

/-- A hook call leaves the breakpoint vector unchanged except possibly for
the hit-count increment at the current line. -/
theorem on_instruction_breakpoints (dc : DebugController)
    (mb : Option MethodBody) (ip depth : Nat) (source : String) :
    (on_instruction dc mb ip depth source).1.breakpoints = dc.breakpoints ∨
    (on_instruction dc mb ip depth source).1.breakpoints =
      incrementHits dc.breakpoints dc.line_to_bp (get_line ip mb) := by
  cases mb with
  | none => exact Or.inl rfl
  | some body =>
    simp only [on_instruction]
    split
    · exact Or.inl rfl
    · split
      · exact Or.inl rfl
      · split
        · exact Or.inl rfl
        · rw [hookFinal_bps, hookStepStage_bps, hookBpStage_bps,
            hookPauseStage_bps, hookPauseStage_m, iteUpdate_bps, iteUpdate_m]
          exact ite_self_or _ _ _

/-- The fold of `incrementHits` leaves every entry holding a disabled
breakpoint untouched. -/
theorem incrementHits_disabled (entries : List (Nat × Nat)) (line j : Nat)
    (bp : Breakpoint) (hdis : bp.enabled = false) :
    ∀ bps : List Breakpoint, bps[j]? = some bp →
      (incrementHits bps entries line)[j]? = some bp := by
  unfold incrementHits
  generalize entries.filter (fun e => decide (e.1 = line)) = l
  induction l with
  | nil => intro bps h; simpa using h
  | cons e es ih =>
    intro bps h
    rw [List.foldl_cons]
    apply ih
    by_cases he : e.2 < bps.length
    · rw [dif_pos he]
      by_cases hen : (bps.get ⟨e.2, he⟩).enabled
      · rw [if_pos hen]
        by_cases hej : e.2 = j
        · exfalso
          have hbj : bps.get ⟨e.2, he⟩ = bp := by
            have h' := h
            rw [← hej] at h'
            rw [List.getElem?_eq_getElem he] at h'
            simpa using h'
          rw [hbj, hdis] at hen
          exact absurd hen (by simp)
        · rw [List.getElem?_set_ne hej]
          exact h
      · rw [if_neg hen]; exact h
    · rw [dif_neg he]; exact h

/-- A positive `check_breakpoint` exhibits a multimap entry at that line
whose breakpoint is enabled and source-matching. -/
theorem check_breakpoint_exists (dc : DebugController) (line : Nat)
    (source : String) (h : check_breakpoint dc line source = true) :
    ∃ e ∈ dc.line_to_bp, e.1 = line ∧
      ∃ hlt : e.2 < dc.breakpoints.length,
        (dc.breakpoints.get ⟨e.2, hlt⟩).enabled = true ∧
        ((dc.breakpoints.get ⟨e.2, hlt⟩).source_file.isEmpty ||
          (!source.isEmpty &&
            paths_equal (dc.breakpoints.get ⟨e.2, hlt⟩).source_file source))
          = true := by
  unfold check_breakpoint at h
  rw [List.any_eq_true] at h
  obtain ⟨e, he, hm⟩ := h
  rw [List.mem_filter] at he
  refine ⟨e, he.1, by simpa using he.2, ?_⟩
  unfold bpEntryMatches at hm
  by_cases hlt : e.2 < dc.breakpoints.length
  · rw [dif_pos hlt] at hm
    rw [Bool.and_eq_true] at hm
    exact ⟨hlt, hm.1, hm.2⟩
  · rw [dif_neg hlt] at hm
    exact absurd hm (by simp)

/-- A breakpoint-hit event implies the breakpoint check succeeded on the
pre-call controller at the current line. -/
theorem on_instruction_bpHit (dc : DebugController) (mb : Option MethodBody)
    (ip depth : Nat) (source : String)
    (h : (on_instruction dc mb ip depth source).2.2 =
      Option.some DebugEvent.breakpointHit) :
    check_breakpoint dc (get_line ip mb) source = true := by
  obtain ⟨bps, nid, m, sm, sfd, ssl, sk, pa, pr, pl⟩ := dc
  cases mb with
  | none => simp [on_instruction] at h
  | some body =>
    by_cases hip2 : ip ≥ body.line_info.length
    · simp [on_instruction, hip2] at h
    · by_cases hz : get_line ip (Option.some body) = 0
      · simp [on_instruction, hip2, hz] at h
      · generalize hLdef : get_line ip (Option.some body) = L at hz ⊢
        by_cases hcb :
          (m.filter (fun e => decide (e.1 = L))).any
            (bpEntryMatches bps source) = true
        · exact hcb
        · exfalso
          cases pr <;> cases sk <;> cases sm <;>
            by_cases hlc : L = pl <;> try subst hlc
          all_goals by_cases hd1 : depth ≤ sfd <;>
            by_cases hd2 : depth < sfd <;>
            first
            | simp [on_instruction, hookPauseStage, hookBpStage, hookStepStage,
                check_breakpoint_mk, hLdef, hcb, hlc, hd1, hd2, hip2, hz,
                -List.any_eq_true, -List.any_filter] at h
            | simp [on_instruction, hookPauseStage, hookBpStage, hookStepStage,
                check_breakpoint_mk, hLdef, hcb, hd1, hd2, hip2, hz,
                -List.any_eq_true, -List.any_filter] at h

/-- **C10, confirmed.**  A breakpoint whose enabled flag is false never has
its record (in particular its hit count) changed by a hook call, and a
hook call reports a breakpoint pause only when some *enabled*,
source-matching breakpoint sits on the current line — so a disabled
breakpoint neither pauses execution nor accumulates hits until
re-enabled. -/
theorem C10_disabled_breakpoint (dc : DebugController)
    (mb : Option MethodBody) (ip depth : Nat) (source : String) (j : Nat)
    (bp : Breakpoint) (hj : dc.breakpoints[j]? = some bp)
    (hdis : bp.enabled = false) :
    ((on_instruction dc mb ip depth source).1.breakpoints[j]? = some bp) ∧
    ((on_instruction dc mb ip depth source).2.2 =
        Option.some DebugEvent.breakpointHit →
      ∃ e ∈ dc.line_to_bp, e.1 = get_line ip mb ∧
        ∃ hlt : e.2 < dc.breakpoints.length,
          (dc.breakpoints.get ⟨e.2, hlt⟩).enabled = true ∧
          ((dc.breakpoints.get ⟨e.2, hlt⟩).source_file.isEmpty ||
            (!source.isEmpty &&
              paths_equal (dc.breakpoints.get ⟨e.2, hlt⟩).source_file source))
            = true) := by
  constructor
  · rcases on_instruction_breakpoints dc mb ip depth source with h | h
    · rw [h]; exact hj
    · rw [h]
      exact incrementHits_disabled dc.line_to_bp (get_line ip mb) j bp hdis
        dc.breakpoints hj
  · intro hev
    exact check_breakpoint_exists dc (get_line ip mb) source
      (on_instruction_bpHit dc mb ip depth source hev)

/-- Witness for `C10_disabled_breakpoint`: a single disabled breakpoint on
line 5; stepping onto line 5 leaves its record intact and reports no
breakpoint pause. -/
theorem C10_disabled_breakpoint_witness :
    ((on_instruction
        { dcInit with
            breakpoints :=
              [{ id := 1, source_file := "", line := 5, enabled := false
                 hit_count := 0 }]
            line_to_bp := [(5, 0)] }
        (Option.some { line_info := [5], debug_info := Option.none })
        0 0 "").1.breakpoints[0]? =
      some { id := 1, source_file := "", line := 5, enabled := false
             hit_count := 0 }) :=
  (C10_disabled_breakpoint
    { dcInit with
        breakpoints :=
          [{ id := 1, source_file := "", line := 5, enabled := false
             hit_count := 0 }]
        line_to_bp := [(5, 0)] }
    (Option.some { line_info := [5], debug_info := Option.none }) 0 0 "" 0
    { id := 1, source_file := "", line := 5, enabled := false
      hit_count := 0 }
    (by decide) rfl).1

/-- While the one-shot skip flag is up, a hook call at the previous line
(or at an unknown line) keeps the flag up, keeps `prev_line`, and never
reports a breakpoint pause. -/
theorem hook_skip_same_line (dc : DebugController) (mb : Option MethodBody)
    (ip depth : Nat) (source : String)
    (hskip : dc.skip_bp_on_resume = true)
    (hline : get_line ip mb = dc.prev_line ∨ get_line ip mb = 0) :
    (on_instruction dc mb ip depth source).1.skip_bp_on_resume = true ∧
    (on_instruction dc mb ip depth source).1.prev_line = dc.prev_line ∧
    (on_instruction dc mb ip depth source).2.2 ≠
      Option.some DebugEvent.breakpointHit := by
  obtain ⟨bps, nid, m, sm, sfd, ssl, sk, pa, pr, pl⟩ := dc
  cases sk
  · simp at hskip
  cases mb with
  | none => simp [on_instruction]
  | some body =>
    by_cases hip2 : ip ≥ body.line_info.length
    · simp [on_instruction, hip2]
    · by_cases hz : get_line ip (Option.some body) = 0
      · simp [on_instruction, hip2, hz]
      · have hl : get_line ip (Option.some body) = pl := by
          rcases hline with h | h
          · exact h
          · exact absurd h hz
        have hpl : pl ≠ 0 := hl ▸ hz
        cases pr <;> cases sm <;>
          simp [on_instruction, hookPauseStage, hookBpStage, hookStepStage,
            hip2, hz, hl, hpl]

/-- A found breakpoint index is in range. -/
theorem findIdxById_lt (bps : List Breakpoint) (bp_id : Nat) :
    ∀ i, findIdxById bps bp_id = some i → i < bps.length := by
  induction bps with
  | nil => intro i h; simp [findIdxById] at h
  | cons b rest ih =>
    intro i h
    unfold findIdxById at h
    by_cases hb : b.id = bp_id
    · rw [if_pos hb] at h
      injection h with h
      simp [← h]
    · rw [if_neg hb] at h
      cases hf : findIdxById rest bp_id with
      | none => rw [hf] at h; simp at h
      | some j =>
        rw [hf] at h
        simp only [Option.map] at h
        injection h with h
        have := ih j hf
        simp only [List.length_cons]
        omega

/-- A found index means a breakpoint with that id exists. -/
theorem findIdxById_some_exists (bps : List Breakpoint) (bp_id : Nat) :
    ∀ i, findIdxById bps bp_id = some i → ∃ bp ∈ bps, bp.id = bp_id := by
  induction bps with
  | nil => intro i h; simp [findIdxById] at h
  | cons b rest ih =>
    intro i h
    unfold findIdxById at h
    by_cases hb : b.id = bp_id
    · exact ⟨b, by simp, hb⟩
    · rw [if_neg hb] at h
      cases hf : findIdxById rest bp_id with
      | none => rw [hf] at h; simp at h
      | some j =>
        obtain ⟨bp, hbp, hid⟩ := ih j hf
        exact ⟨bp, by simp [hbp], hid⟩

/-- A failed search means no breakpoint with that id exists. -/
theorem findIdxById_none (bps : List Breakpoint) (bp_id : Nat)
    (h : findIdxById bps bp_id = none) : ∀ bp ∈ bps, bp.id ≠ bp_id := by
  induction bps with
  | nil => simp
  | cons b rest ih =>
    unfold findIdxById at h
    by_cases hb : b.id = bp_id
    · rw [if_pos hb] at h; simp at h
    · rw [if_neg hb] at h
      intro bp hbp
      rcases List.mem_cons.mp hbp with hh | hh
      · rw [hh]; exact hb
      · cases hf : findIdxById rest bp_id with
        | none => exact ih hf bp hh
        | some j => rw [hf] at h; simp at h

/-- An empty filter means the predicate fails on every element. -/
theorem filter_nil_not (p : (Nat × Nat) → Bool) (m : List (Nat × Nat))
    (h : m.filter p = []) : ∀ e ∈ m, p e = false := by
  intro e he
  by_contra hne
  have hmem : e ∈ m.filter p :=
    List.mem_filter.mpr ⟨he, by simpa using hne⟩
  rw [h] at hmem
  simp at hmem

/-- Erasing an entry only removes elements already present. -/
theorem eraseFirstEntry_subset (line i : Nat) (m : List (Nat × Nat)) :
    ∀ e ∈ eraseFirstEntry line i m, e ∈ m := by
  induction m with
  | nil => simp [eraseFirstEntry]
  | cons a as ih =>
    intro e he
    unfold eraseFirstEntry at he
    by_cases ha : a.1 = line ∧ a.2 = i
    · rw [if_pos ha] at he; exact List.mem_cons_of_mem a he
    · rw [if_neg ha] at he
      rcases List.mem_cons.mp he with h | h
      · exact h ▸ List.mem_cons_self a as
      · exact List.mem_cons_of_mem a (ih e h)

/-- Erasing the `(line, i)` entry does not disturb the sub-map of any
other index. -/
theorem eraseFirstEntry_filter_ne (line i j : Nat) (hij : j ≠ i)
    (m : List (Nat × Nat)) :
    (eraseFirstEntry line i m).filter (fun e => decide (e.2 = j)) =
      m.filter (fun e => decide (e.2 = j)) := by
  induction m with
  | nil => rfl
  | cons a as ih =>
    unfold eraseFirstEntry
    by_cases ha : a.1 = line ∧ a.2 = i
    · rw [if_pos ha]
      rw [List.filter_cons, if_neg (by simp [ha.2, Ne.symm hij])]
    · rw [if_neg ha]
      rw [List.filter_cons, List.filter_cons]
      by_cases haj : a.2 = j
      · rw [if_pos (by simp [haj]), if_pos (by simp [haj]), ih]
      · rw [if_neg (by simp [haj]), if_neg (by simp [haj])]
        exact ih

/-- Erasing the unique `(line, i)` entry empties index `i`'s sub-map. -/
theorem eraseFirstEntry_filter_self (line i : Nat) :
    ∀ m : List (Nat × Nat),
      m.filter (fun e => decide (e.2 = i)) = [(line, i)] →
      (eraseFirstEntry line i m).filter (fun e => decide (e.2 = i)) = [] := by
  intro m
  induction m with
  | nil => intro h; simp at h
  | cons a as ih =>
    intro h
    unfold eraseFirstEntry
    by_cases ha : a.1 = line ∧ a.2 = i
    · rw [if_pos ha]
      rw [List.filter_cons, if_pos (by simp [ha.2])] at h
      rw [List.cons.injEq] at h
      exact h.2
    · rw [if_neg ha]
      by_cases hai : a.2 = i
      · exfalso
        rw [List.filter_cons, if_pos (by simp [hai])] at h
        rw [List.cons.injEq] at h
        exact ha ⟨by rw [h.1], hai⟩
      · rw [List.filter_cons, if_neg (by simp [hai])] at h
        rw [List.filter_cons, if_neg (by simp [hai])]
        exact ih h

/-- Retargeting produces only old entries or the new `(l, t)` entry. -/
theorem retargetFirstEntry_subset (l f t : Nat) (m : List (Nat × Nat)) :
    ∀ e ∈ retargetFirstEntry l f t m, e ∈ m ∨ e = (l, t) := by
  induction m with
  | nil => simp [retargetFirstEntry]
  | cons a as ih =>
    intro e he
    unfold retargetFirstEntry at he
    by_cases ha : a.1 = l ∧ a.2 = f
    · rw [if_pos ha] at he
      rcases List.mem_cons.mp he with h | h
      · right; rw [h, ha.1]
      · left; exact List.mem_cons_of_mem a h
    · rw [if_neg ha] at he
      rcases List.mem_cons.mp he with h | h
      · left; exact h ▸ List.mem_cons_self a as
      · rcases ih e h with h' | h'
        · left; exact List.mem_cons_of_mem a h'
        · right; exact h'

/-- Retargeting `(l, f)` to `t` does not disturb the sub-map of any index
other than `f` and `t`. -/
theorem retargetFirstEntry_filter_ne (l f t j : Nat) (hjf : j ≠ f)
    (hjt : j ≠ t) (m : List (Nat × Nat)) :
    (retargetFirstEntry l f t m).filter (fun e => decide (e.2 = j)) =
      m.filter (fun e => decide (e.2 = j)) := by
  induction m with
  | nil => rfl
  | cons a as ih =>
    unfold retargetFirstEntry
    by_cases ha : a.1 = l ∧ a.2 = f
    · rw [if_pos ha]
      rw [List.filter_cons, List.filter_cons]
      rw [if_neg (by simp [Ne.symm hjt]), if_neg (by simp [ha.2, Ne.symm hjf])]
    · rw [if_neg ha]
      rw [List.filter_cons, List.filter_cons]
      by_cases haj : a.2 = j
      · rw [if_pos (by simp [haj]), if_pos (by simp [haj]), ih]
      · rw [if_neg (by simp [haj]), if_neg (by simp [haj])]
        exact ih

/-- Retargeting the unique `(l, f)` entry into index `t` (whose sub-map
was empty) makes `t`'s sub-map exactly `[(l, t)]`. -/
theorem retargetFirstEntry_filter_to (l f t : Nat) (hft : f ≠ t) :
    ∀ m : List (Nat × Nat),
      m.filter (fun e => decide (e.2 = f)) = [(l, f)] →
      m.filter (fun e => decide (e.2 = t)) = [] →
      (retargetFirstEntry l f t m).filter (fun e => decide (e.2 = t))
        = [(l, t)] := by
  intro m
  induction m with
  | nil => intro hf _; simp at hf
  | cons a as ih =>
    intro hf ht
    unfold retargetFirstEntry
    by_cases ha : a.1 = l ∧ a.2 = f
    · rw [if_pos ha]
      rw [List.filter_cons, if_pos (by simp)]
      have ht' : as.filter (fun e => decide (e.2 = t)) = [] := by
        rw [List.filter_cons, if_neg (by simp [ha.2, hft])] at ht
        exact ht
      rw [ht', ha.1]
    · rw [if_neg ha]
      have haf : a.2 ≠ f := by
        intro haf
        rw [List.filter_cons, if_pos (by simp [haf])] at hf
        rw [List.cons.injEq] at hf
        exact ha ⟨by rw [hf.1], haf⟩
      have hat : a.2 ≠ t := by
        intro hat
        rw [List.filter_cons, if_pos (by simp [hat])] at ht
        simp at ht
      rw [List.filter_cons, if_neg (by simp [hat])]
      apply ih
      · rw [List.filter_cons, if_neg (by simp [haf])] at hf; exact hf
      · rw [List.filter_cons, if_neg (by simp [hat])] at ht; exact ht

/-- After retargeting the unique `(l, f)` entry, index `f`'s sub-map is
empty. -/
theorem retargetFirstEntry_filter_from (l f t : Nat) (hft : f ≠ t) :
    ∀ m : List (Nat × Nat),
      m.filter (fun e => decide (e.2 = f)) = [(l, f)] →
      (retargetFirstEntry l f t m).filter (fun e => decide (e.2 = f))
        = [] := by
  intro m
  induction m with
  | nil => intro hf; simp at hf
  | cons a as ih =>
    intro hf
    unfold retargetFirstEntry
    by_cases ha : a.1 = l ∧ a.2 = f
    · rw [if_pos ha]
      rw [List.filter_cons, if_neg (by simp [Ne.symm hft])]
      rw [List.filter_cons, if_pos (by simp [ha.2])] at hf
      rw [List.cons.injEq] at hf
      exact hf.2
    · rw [if_neg ha]
      have haf : a.2 ≠ f := by
        intro haf
        rw [List.filter_cons, if_pos (by simp [haf])] at hf
        rw [List.cons.injEq] at hf
        exact ha ⟨by rw [hf.1], haf⟩
      rw [List.filter_cons, if_neg (by simp [haf])]
      apply ih
      rw [List.filter_cons, if_neg (by simp [haf])] at hf
      exact hf

/-- `add_breakpoint` preserves the table invariant. -/
theorem BpInv_add (dc : DebugController) (line : Nat) (src : String)
    (h : BpInv dc) : BpInv (add_breakpoint dc line src).1 := by
  obtain ⟨h1, h2⟩ := h
  constructor
  · intro e he
    simp only [add_breakpoint, List.mem_append, List.mem_singleton] at he
    simp only [add_breakpoint, List.length_append, List.length_singleton]
    rcases he with hm | hm
    · have := h1 e hm; omega
    · rw [hm]; simp
  · intro j hj
    simp only [add_breakpoint, List.length_append, List.length_singleton] at hj
    simp only [add_breakpoint]
    rw [List.filter_append]
    by_cases hjn : j < dc.breakpoints.length
    · rw [h2 j hjn]
      have hfilter :
          List.filter (fun e => decide (e.2 = j))
            [((line, dc.breakpoints.length) : Nat × Nat)] = [] := by
        simp only [List.filter_cons, List.filter_nil]
        rw [if_neg (by simp; omega)]
      rw [hfilter, List.getElem_append_left hjn]
      simp
    · have hj' : j = dc.breakpoints.length := by omega
      subst hj'
      have hnil : dc.line_to_bp.filter
          (fun e => decide (e.2 = dc.breakpoints.length)) = [] := by
        apply List.filter_eq_nil_iff.mpr
        intro e he
        have := h1 e he
        simp
        omega
      rw [hnil]
      simp [List.getElem_concat_length]

/-- `clear_all_breakpoints` restores the empty-table invariant. -/
theorem BpInv_clear (dc : DebugController) :
    BpInv (clear_all_breakpoints dc) := by
  constructor
  · intro e he; simp [clear_all_breakpoints] at he
  · intro j hj; simp [clear_all_breakpoints] at hj

/-- `remove_breakpoint` preserves the table invariant. -/
theorem BpInv_remove (dc : DebugController) (bp_id : Nat)
    (h : BpInv dc) : BpInv (remove_breakpoint dc bp_id).1 := by
  obtain ⟨h1, h2⟩ := h
  unfold remove_breakpoint
  cases hf : findIdxById dc.breakpoints bp_id with
  | none => exact ⟨h1, h2⟩
  | some i =>
    have hi : i < dc.breakpoints.length := findIdxById_lt _ _ i hf
    have hgetD : dc.breakpoints.getD i defaultBp = dc.breakpoints[i] :=
      List.getD_eq_getElem dc.breakpoints defaultBp hi
    have hselferase :
        (eraseFirstEntry (dc.breakpoints.getD i defaultBp).line i
            dc.line_to_bp).filter (fun e => decide (e.2 = i)) = [] := by
      apply eraseFirstEntry_filter_self
      rw [hgetD]
      exact h2 i hi
    dsimp only
    by_cases hcase : i < dc.breakpoints.length - 1
    · rw [if_pos hcase]
      have hn1 : dc.breakpoints.length - 1 < dc.breakpoints.length := by omega
      have hgetDlast :
          dc.breakpoints.getD (dc.breakpoints.length - 1) defaultBp =
            dc.breakpoints[dc.breakpoints.length - 1] :=
        List.getD_eq_getElem dc.breakpoints defaultBp hn1
      have hni : dc.breakpoints.length - 1 ≠ i := by omega
      have hB :
          (eraseFirstEntry (dc.breakpoints.getD i defaultBp).line i
              dc.line_to_bp).filter
            (fun e => decide (e.2 = dc.breakpoints.length - 1)) =
            [(dc.breakpoints[dc.breakpoints.length - 1].line,
              dc.breakpoints.length - 1)] := by
        rw [eraseFirstEntry_filter_ne _ _ _ hni]
        exact h2 _ hn1
      constructor
      · intro e he
        simp only [List.length_dropLast, List.length_set]
        rcases retargetFirstEntry_subset _ _ _ _ e he with hm | hm
        · have he2 := h1 e (eraseFirstEntry_subset _ _ _ e hm)
          have hne :
              decide (e.2 = dc.breakpoints.length - 1) = false := by
            apply filter_nil_not _ _ ?_ e he
            apply retargetFirstEntry_filter_from _ _ _ hni
            rw [hgetDlast]
            exact hB
          simp at hne
          omega
        · rw [hm]; simpa using hcase
      · intro j hj
        simp only [List.length_dropLast, List.length_set] at hj
        have hjlt : j < dc.breakpoints.length := by omega
        have hgoal :
            ((dc.breakpoints.set i
                (dc.breakpoints.getD (dc.breakpoints.length - 1)
                  defaultBp)).dropLast)[j] =
              if i = j then dc.breakpoints[dc.breakpoints.length - 1]
              else dc.breakpoints[j] := by
          rw [List.getElem_dropLast, List.getElem_set]
          split
          · exact hgetDlast
          · rfl
        rw [hgoal]
        by_cases hij : i = j
        · rw [if_pos hij]
          subst hij
          rw [retargetFirstEntry_filter_to _ _ _ hni _ (by rw [hgetDlast]; exact hB) hselferase]
          rw [hgetDlast]
        · rw [if_neg hij]
          rw [retargetFirstEntry_filter_ne _ _ _ _ (by omega) (fun hji => hij hji.symm)]
          rw [eraseFirstEntry_filter_ne _ _ _ (fun hji => hij hji.symm)]
          exact h2 j hjlt
    · rw [if_neg hcase]
      have hieq : i = dc.breakpoints.length - 1 := by omega
      constructor
      · intro e he
        simp only [List.length_dropLast]
        have hem := eraseFirstEntry_subset _ _ _ e he
        have he2 := h1 e hem
        have hne : decide (e.2 = i) = false :=
          filter_nil_not _ _ hselferase e he
        simp at hne
        omega
      · intro j hj
        simp only [List.length_dropLast] at hj
        have hjlt : j < dc.breakpoints.length := by omega
        have hji : j ≠ i := by omega
        rw [List.getElem_dropLast]
        rw [eraseFirstEntry_filter_ne _ _ _ hji]
        exact h2 j hjlt

/-- The removal loop of `set_breakpoints_for_source` preserves the table
invariant. -/
theorem BpInv_removeLoop (norm : String) :
    ∀ (k : Nat) (dc : DebugController), BpInv dc →
      BpInv (removeMatchingSourceLoop norm dc k) := by
  intro k
  induction k with
  | zero => intro dc h; exact h
  | succ k ih =>
    intro dc h
    unfold removeMatchingSourceLoop
    apply ih
    dsimp only
    split
    · split
      · exact BpInv_remove _ _ h
      · exact h
    · exact h

/-- The add loop of `set_breakpoints_for_source` preserves the table
invariant. -/
theorem BpInv_addFold (norm : String) :
    ∀ (lines : List Nat) (dc : DebugController), BpInv dc →
      BpInv (lines.foldl
        (fun acc line => (add_breakpoint acc line norm).1) dc) := by
  intro lines
  induction lines with
  | nil => intro dc h; exact h
  | cons l ls ih => intro dc h; exact ih _ (BpInv_add dc l norm h)

/-- `set_breakpoints_for_source` preserves the table invariant. -/
theorem BpInv_setForSource (dc : DebugController) (norm : String)
    (lines : List Nat) (h : BpInv dc) :
    BpInv (set_breakpoints_for_source dc norm lines) := by
  unfold set_breakpoints_for_source
  exact BpInv_addFold norm lines _
    (BpInv_removeLoop norm dc.breakpoints.length dc h)

/-- The freshly constructed controller satisfies the table invariant. -/
theorem BpInv_init : BpInv dcInit := by
  constructor
  · intro e he; simp [dcInit] at he
  · intro j hj; simp [dcInit] at hj

/-- Every breakpoint-table operation preserves the table invariant. -/
theorem BpInv_applyOp (dc : DebugController) (op : BpOp) (h : BpInv dc) :
    BpInv (applyBpOp dc op) := by
  cases op with
  | addBp line src => exact BpInv_add dc line src h
  | removeBp i => exact BpInv_remove dc i h
  | setForSource s lines => exact BpInv_setForSource dc s lines h
  | clearAll => exact BpInv_clear dc

/-- Any operation sequence preserves the table invariant. -/
theorem BpInv_applyOps (ops : List BpOp) :
    ∀ dc, BpInv dc → BpInv (applyBpOps dc ops) := by
  induction ops with
  | nil => intro dc h; exact h
  | cons op rest ih => intro dc h; exact ih _ (BpInv_applyOp dc op h)

/-- The strengthened invariant implies the claim's consistency
property. -/
theorem BpInv_consistent (dc : DebugController) (h : BpInv dc) :
    bpTableConsistent dc := by
  obtain ⟨h1, h2⟩ := h
  constructor
  · intro e he
    have hlt := h1 e he
    refine ⟨hlt, ?_⟩
    have hmem : e ∈ dc.line_to_bp.filter (fun x => decide (x.2 = e.2)) :=
      List.mem_filter.mpr ⟨he, by simp⟩
    rw [h2 e.2 hlt] at hmem
    simp only [List.mem_singleton] at hmem
    exact (congrArg Prod.fst hmem).symm
  · intro j hj
    have hmem : (dc.breakpoints[j].line, j) ∈
        dc.line_to_bp.filter (fun e => decide (e.2 = j)) := by
      rw [h2 j hj]; simp
    exact (List.mem_filter.mp hmem).1

/-- **C9, confirmed.**  After any sequence of `add_breakpoint`,
`remove_breakpoint`, `set_breakpoints_for_source` and
`clear_all_breakpoints` operations from the fresh controller, the
line-to-breakpoint multimap is consistent with the breakpoint vector:
every entry `(line, index)` has `index` in range with the breakpoint at
that index on that line, and every breakpoint is reachable from the map
under its line; moreover `remove_breakpoint` returns true exactly when a
breakpoint with the given id existed. -/
theorem C9_breakpoint_table (ops : List BpOp) :
    bpTableConsistent (applyBpOps dcInit ops) ∧
    (∀ (dc : DebugController) (bp_id : Nat),
      (remove_breakpoint dc bp_id).2 = true ↔
        ∃ bp ∈ dc.breakpoints, bp.id = bp_id) := by
  constructor
  · exact BpInv_consistent _ (BpInv_applyOps ops dcInit BpInv_init)
  · intro dc bp_id
    constructor
    · intro h
      unfold remove_breakpoint at h
      cases hf : findIdxById dc.breakpoints bp_id with
      | none => rw [hf] at h; simp at h
      | some i => exact findIdxById_some_exists _ _ i hf
    · rintro ⟨bp, hbp, hid⟩
      unfold remove_breakpoint
      cases hf : findIdxById dc.breakpoints bp_id with
      | none => exact absurd hid (findIdxById_none _ _ hf bp hbp)
      | some i =>
        dsimp only
        split <;> rfl

/-- Witness for `C9_breakpoint_table`'s removal direction: after adding a
breakpoint on line 3, removing id 1 reports success. -/
theorem C9_breakpoint_table_witness :
    (remove_breakpoint (applyBpOps dcInit [BpOp.addBp 3 ""]) 1).2 = true :=
  ((C9_breakpoint_table [BpOp.addBp 3 ""]).2
      (applyBpOps dcInit [BpOp.addBp 3 ""]) 1).mpr
    ⟨{ id := 1, source_file := "", line := 3, enabled := true
       hit_count := 0 },
     by decide, rfl⟩

/-- **C5, confirmed.**  Every resume/step command raises the one-shot
skip-breakpoint flag (leaving `prev_line` unchanged); while the flag is up,
any run of hook calls that stays on that line (or on instructions with
unknown line) never reports a breakpoint pause; and the flag is cleared by
the first hook call on a different known line. -/
theorem C5_skip_breakpoint_on_resume (dc0 : DebugController)
    (inputs : List HookInput) :
    ((resume dc0).skip_bp_on_resume = true ∧
      (resume dc0).prev_line = dc0.prev_line) ∧
    ((step_over dc0).skip_bp_on_resume = true ∧
      (step_over dc0).prev_line = dc0.prev_line) ∧
    ((step_into dc0).skip_bp_on_resume = true ∧
      (step_into dc0).prev_line = dc0.prev_line) ∧
    ((step_out dc0).skip_bp_on_resume = true ∧
      (step_out dc0).prev_line = dc0.prev_line) ∧
    (∀ dc : DebugController, dc.skip_bp_on_resume = true →
      (∀ inp ∈ inputs, get_line inp.ip inp.mb = dc.prev_line ∨
          get_line inp.ip inp.mb = 0) →
      ∀ out ∈ (runHook dc inputs).2,
        out.2 ≠ Option.some DebugEvent.breakpointHit) ∧
    (∀ (dc : DebugController) (mb : Option MethodBody) (ip depth : Nat)
        (source : String),
      get_line ip mb ≠ dc.prev_line → get_line ip mb ≠ 0 →
      (on_instruction dc mb ip depth source).1.skip_bp_on_resume = false) := by
  refine ⟨⟨rfl, rfl⟩, ⟨rfl, rfl⟩, ⟨rfl, rfl⟩, ⟨rfl, rfl⟩, ?_, ?_⟩
  · intro dc hskip hlines out hout
    induction inputs generalizing dc with
    | nil => simp [runHook] at hout
    | cons inp rest ih =>
      have h1 := hook_skip_same_line dc inp.mb inp.ip inp.depth inp.source
        hskip (hlines inp (by simp))
      simp only [runHook, List.mem_cons] at hout
      rcases hout with heq | htail
      · rw [heq]; exact h1.2.2
      · refine ih (on_instruction dc inp.mb inp.ip inp.depth inp.source).1
          h1.1 ?_ htail
        intro inp' hin'
        rw [h1.2.1]
        exact hlines inp' (by simp [hin'])
  · intro dc mb ip depth source hne hz
    cases mb with
    | none => simp [get_line] at hz
    | some body =>
      by_cases hip2 : ip ≥ body.line_info.length
      · exact absurd (by simp [get_line, Nat.lt_of_lt_of_le, hip2] :
          get_line ip (Option.some body) = 0) hz
      · simp only [on_instruction]
        rw [if_neg hip2, if_neg hz]
        have hlct :
            decide (get_line ip (Option.some body) ≠ dc.prev_line) = true := by
          simp [hne]
        simp only [hlct, Bool.not_true, Bool.false_and, eq_self_iff_true,
          if_true, if_neg Bool.false_ne_true]
        rw [hookFinal_skip, hookStepStage_skip, hookBpStage_skip,
          hookPauseStage_skip]

/-- The debug-info branch of `get_locals` equals the claim's
filter-and-read, when every in-scope slot lies on the stack. -/
theorem filterMap_scope (stack : List Value) (base ip : Nat) :
    ∀ locals : List LocalVarInfo,
      (∀ l ∈ locals,
        (l.scope_start_offset ≤ ip ∧
          (l.scope_end_offset = 0 ∨ ip < l.scope_end_offset)) →
        base + l.slot_index < stack.length) →
      (locals.filterMap (fun l =>
        if l.scope_start_offset ≤ ip ∧
            (l.scope_end_offset = 0 ∨ ip < l.scope_end_offset) then
          (if hs : base + l.slot_index < stack.length then
            Option.some
              ({ name := l.name, slot := l.slot_index
                 value := stack.get ⟨base + l.slot_index, hs⟩ } :
                DebugVariable)
          else Option.none)
        else Option.none)) =
      ((locals.filter (fun l =>
          decide (l.scope_start_offset ≤ ip ∧
            (l.scope_end_offset = 0 ∨ ip < l.scope_end_offset)))).map
        (fun l =>
          { name := l.name, slot := l.slot_index
            value := stack.getD (base + l.slot_index) Value.vnull })) := by
  intro locals
  induction locals with
  | nil => intro _; rfl
  | cons l ls ih =>
    intro hs
    by_cases hin : l.scope_start_offset ≤ ip ∧
        (l.scope_end_offset = 0 ∨ ip < l.scope_end_offset)
    · have hlt := hs l (by simp) hin
      simp only [List.filterMap_cons, List.filter_cons, if_pos hin,
        dif_pos hlt, if_pos (show decide (l.scope_start_offset ≤ ip ∧
          (l.scope_end_offset = 0 ∨ ip < l.scope_end_offset)) = true by
            simpa using hin)]
      rw [List.map_cons]
      rw [ih (fun a ha hina => hs a (by simp [ha]) hina)]
      congr 1
      simp [List.getD_eq_getElem stack Value.vnull hlt,
        List.getElem?_eq_getElem hlt]
    · simp only [List.filterMap_cons, List.filter_cons, if_neg hin,
        if_neg (show ¬ decide (l.scope_start_offset ≤ ip ∧
          (l.scope_end_offset = 0 ∨ ip < l.scope_end_offset)) = true by
            simpa using hin)]
      exact ih (fun a ha hina => hs a (by simp [ha]) hina)

/-- The no-debug-info branch of `get_locals` equals the claim's
per-live-slot anonymous listing, when the region end is on the stack. -/
theorem range_locals_map (stack : List Value) (base se : Nat)
    (hse : se ≤ stack.length) :
    ((List.range' base (se - base)).map (fun slot =>
      ({ name := "local_" ++ toString (slot - base), slot := slot - base
         value :=
           if hs : slot < stack.length then stack.get ⟨slot, hs⟩
           else Value.vnull } : DebugVariable))) =
    ((List.range (se - base)).map (fun k =>
      ({ name := "local_" ++ toString k, slot := k
         value := stack.getD (base + k) Value.vnull } : DebugVariable))) := by
  rw [List.range'_eq_map_range]
  rw [List.map_map]
  apply List.map_congr_left
  intro k hk
  rw [List.mem_range] at hk
  have hlt : base + k < stack.length := by omega
  simp [Function.comp, hlt, List.getD_eq_getElem stack Value.vnull hlt]

/-- **C6, confirmed.**  For every frame index: with debug info present,
`get_locals` returns exactly the recorded locals whose scope satisfies
`scope_start_offset ≤ ip < scope_end_offset` (zero end meaning no upper
bound), each with its name, slot, and the Value at `frame_base + slot`
(provided those slots lie on the stack); without debug info it returns one
anonymous `local_i` entry per live stack slot of the frame. -/
theorem C6_get_locals (vm : VMSnap) (frame_index : Nat)
    (base : Nat) (bodyOpt : Option MethodBody) (ip : Nat)
    (hres : resolveFrame vm frame_index = (base, bodyOpt, ip)) :
    (∀ body dbg, bodyOpt = Option.some body →
      body.debug_info = Option.some dbg →
      (∀ l ∈ dbg.locals,
        (l.scope_start_offset ≤ ip ∧
          (l.scope_end_offset = 0 ∨ ip < l.scope_end_offset)) →
        base + l.slot_index < vm.stack.length) →
      get_locals vm frame_index =
        (dbg.locals.filter (fun l =>
          decide (l.scope_start_offset ≤ ip ∧
            (l.scope_end_offset = 0 ∨ ip < l.scope_end_offset)))).map
          (fun l =>
            { name := l.name, slot := l.slot_index
              value := vm.stack.getD (base + l.slot_index) Value.vnull })) ∧
    (bodyOpt.bind (fun b => b.debug_info) = Option.none →
      frameStackEnd vm frame_index ≤ vm.stack.length →
      get_locals vm frame_index =
        (List.range (frameStackEnd vm frame_index - base)).map (fun k =>
          { name := "local_" ++ toString k, slot := k
            value := vm.stack.getD (base + k) Value.vnull })) := by
  constructor
  · intro body dbg hb hdbg hs
    subst hb
    unfold get_locals
    rw [hres]
    dsimp only
    rw [show (Option.some body).bind (fun b => b.debug_info) =
        Option.some dbg from by rw [Option.some_bind, hdbg]]
    exact filterMap_scope vm.stack base ip dbg.locals hs
  · intro hnone hse
    unfold get_locals
    rw [hres]
    dsimp only
    rw [hnone]
    exact range_locals_map vm.stack base (frameStackEnd vm frame_index) hse

/-- Witness for `C6_get_locals`: a top-level frame with one recorded local
`x` in slot 0 whose scope is unbounded; `get_locals` reports it with the
stack value 42. -/
theorem C6_get_locals_witness :
    get_locals
      ⟨[Value.vint 42], [],
        Option.some ⟨[1], Option.some ⟨"m.ss", [⟨"x", 0, 0, 0⟩]⟩⟩, 0⟩ 0 =
      [⟨"x", Value.vint 42, 0⟩] := by
  have h := (C6_get_locals
      ⟨[Value.vint 42], [],
        Option.some ⟨[1], Option.some ⟨"m.ss", [⟨"x", 0, 0, 0⟩]⟩⟩, 0⟩ 0 0
      (Option.some ⟨[1], Option.some ⟨"m.ss", [⟨"x", 0, 0, 0⟩]⟩⟩) 0 rfl).1
      ⟨[1], Option.some ⟨"m.ss", [⟨"x", 0, 0, 0⟩]⟩⟩
      ⟨"m.ss", [⟨"x", 0, 0, 0⟩]⟩ rfl rfl (by decide)
  rw [h]
  rfl

/-- **C8, counterexample.**  The claim says the CLI exits with code 2 on a
compile error.  On the code, `main` installs no exception handler and the
front-end reports failures by throwing, so a compile error terminates the
process by an uncaught exception — not by `return 2`; no path of `main`
returns 2. -/
theorem C8_counterexample :
    compilerMain (fun _ => Option.some "let x = ;") (fun _ => true)
        (fun _ => Except.error "Parse error") ["-in", "proj.ssproject"] =
      CliOutcome.uncaughtException "Parse error" ∧
    CliOutcome.uncaughtException "Parse error" ≠
      CliOutcome.exited 2 Option.none := by
  exact ⟨rfl, by decide⟩

/-- **C8, amended.**  The compiler CLI writes its output bytecode to
`<project-stem>.ssasm` and exits 0 on success; it exits 1 on usage error
(and on unreadable input or unwritable output); a compile error escapes
`main` as an uncaught exception — no exit path returns 2. -/
theorem C8_cli_behaviour (readFile : String → Option String)
    (canOpenWrite : String → Bool)
    (compileFn : String → Except String (List Nat)) (args : List String) :
    (∀ code w,
      compilerMain readFile canOpenWrite compileFn args =
        CliOutcome.exited code w → code = 0 ∨ code = 1) ∧
    ((parseArgs args "Debug" "").2 = "" →
      compilerMain readFile canOpenWrite compileFn args =
        CliOutcome.exited 1 Option.none) ∧
    (∀ inp src bytes, (parseArgs args "Debug" "").2 = inp → ¬ inp = "" →
      readFile inp = Option.some src → compileFn src = Except.ok bytes →
      canOpenWrite (pathStem inp ++ ".ssasm") = true →
      compilerMain readFile canOpenWrite compileFn args =
        CliOutcome.exited 0 (Option.some (pathStem inp ++ ".ssasm", bytes))) ∧
    (∀ inp src e, (parseArgs args "Debug" "").2 = inp → ¬ inp = "" →
      readFile inp = Option.some src → compileFn src = Except.error e →
      compilerMain readFile canOpenWrite compileFn args =
        CliOutcome.uncaughtException e) := by
  refine ⟨?_, ?_, ?_, ?_⟩
  · intro code w h
    simp only [compilerMain] at h
    split at h
    · exact Or.inr (by injection h with h1 _; omega)
    · split at h
      · exact Or.inr (by injection h with h1 _; omega)
      · split at h
        · exact absurd h (by simp)
        · split at h
          · exact Or.inl (by injection h with h1 _; omega)
          · exact Or.inr (by injection h with h1 _; omega)
  · intro h0
    simp only [compilerMain]
    rw [if_pos h0]
  · intro inp src bytes hinp hne hr hc hw
    subst hinp
    simp only [compilerMain]
    rw [if_neg hne]
    simp [hr, hc, hw]
  · intro inp src e hinp hne hr hc
    subst hinp
    simp only [compilerMain]
    rw [if_neg hne]
    simp [hr, hc]

/-- Witness for `C8_cli_behaviour`: a successful build of
`proj.ssproject` writes `proj.ssasm` and exits 0. -/
theorem C8_cli_behaviour_witness :
    compilerMain (fun _ => Option.some "print(1)") (fun _ => true)
        (fun _ => Except.ok [7]) ["-in", "proj.ssproject"] =
      CliOutcome.exited 0
        (Option.some (pathStem "proj.ssproject" ++ ".ssasm", [7])) :=
  (C8_cli_behaviour (fun _ => Option.some "print(1)") (fun _ => true)
      (fun _ => Except.ok [7]) ["-in", "proj.ssproject"]).2.2.1
    "proj.ssproject" "print(1)" [7] (by decide) (by decide) rfl rfl rfl

/-- Witness for the C5 parts with hypotheses: after `resume` on a
controller paused at line 5, a hook call that stays on line 5 does not
report a breakpoint pause, and a hook call on line 7 clears the flag. -/
theorem C5_skip_breakpoint_on_resume_witness :
    ((false, (Option.none : Option DebugEvent)).2 ≠
        Option.some DebugEvent.breakpointHit) ∧
    (on_instruction (resume { dcInit with prev_line := 5 })
        (Option.some { line_info := [7], debug_info := Option.none })
        0 0 "").1.skip_bp_on_resume = false := by
  constructor
  · exact (C5_skip_breakpoint_on_resume { dcInit with prev_line := 5 }
      [⟨Option.some { line_info := [5], debug_info := Option.none }, 0, 0, ""⟩]).2.2.2.2.1
      (resume { dcInit with prev_line := 5 }) rfl (by decide)
      (false, Option.none) (by decide)
  · exact (C5_skip_breakpoint_on_resume { dcInit with prev_line := 5 }
      []).2.2.2.2.2
      (resume { dcInit with prev_line := 5 })
      (Option.some { line_info := [7], debug_info := Option.none })
      0 0 "" (by decide) (by decide)

end SwiftScript
